import Mathlib

/-!
Shallow embedding of the self-adaptive MQTT publisher layer of
eclipse-paho/paho.mqtt.cpp (example `self_adaptive_publisher`):
the broker registry and score model (`broker_list_manager`),
the offline publish queue and the session manager (`mqtt_manager`).
Doubles are modelled as rationals, C++ `int` as `Int`, timestamps as `Nat`
passed explicitly, and the network (connect attempts, client publishes)
as boolean oracles.
-/

namespace PahoSelfAdaptive

/-- Weight profile `(latency, bandwidth, connection)`, from `score_weights.h`. -/
structure ScoreWeights where
  latency : ℚ
  bandwidth : ℚ
  connection : ℚ
deriving DecidableEq

/-- The fixed category table `CATEGORY_WEIGHTS` from `score_weights.h`. -/
def CATEGORY_WEIGHTS : List (String × ScoreWeights) :=
  [("sensor",    ⟨6/10, 2/10, 2/10⟩),
   ("camera",    ⟨2/10, 6/10, 2/10⟩),
   ("meter",     ⟨6/10, 2/10, 2/10⟩),
   ("light",     ⟨6/10, 2/10, 2/10⟩),
   ("appliance", ⟨6/10, 2/10, 2/10⟩),
   ("wearable",  ⟨3/10, 4/10, 3/10⟩),
   ("beacon",    ⟨6/10, 2/10, 2/10⟩),
   ("traffic",   ⟨4/10, 2/10, 4/10⟩),
   ("drone",     ⟨3/10, 5/10, 2/10⟩),
   ("rfid",      ⟨3/10, 2/10, 5/10⟩),
   ("signage",   ⟨2/10, 6/10, 2/10⟩)]

/-- Association-list lookup, mirroring `CATEGORY_WEIGHTS.count(c) ? at(c) : ...`. -/
def lookup_weights : List (String × ScoreWeights) → String → Option ScoreWeights
  | [], _ => none
  | (k, v) :: rest, c => if k = c then some v else lookup_weights rest c

/-- `CATEGORY_WEIGHTS.count(category_) ? CATEGORY_WEIGHTS.at(category_)
: CATEGORY_WEIGHTS.at("sensor")` as used in `BrokerListManager`. -/
def weights_for (c : String) : ScoreWeights :=
  (lookup_weights CATEGORY_WEIGHTS c).getD ⟨6/10, 2/10, 2/10⟩

/-- Broker record, from `BrokerInfo` in `broker_list_manager.h`. -/
structure BrokerInfo where
  uri : String
  latency : ℚ
  bandwidth : ℚ
  connection_count : ℤ
  score : ℚ
  is_available : Bool
  last_check : ℕ
deriving DecidableEq

/-- The `BrokerInfo` constructor: fresh record with zero metrics, zero score,
available, stamped with the current time. -/
def mkBrokerInfo (broker_uri : String) (now : ℕ) : BrokerInfo :=
  ⟨broker_uri, 0, 0, 0, 0, true, now⟩

/-- `BrokerInfo::update_score` from `broker_list_manager.cpp`: normalise each
metric against its baseline (100 ms, 1 MB/s, 100 connections), form the
weighted sum, then zero the score when the broker is unavailable. -/
def update_score (weights : ScoreWeights) (b : BrokerInfo) : BrokerInfo :=
  let latency_score : ℚ := if b.latency > 0 then max 0 (1 - b.latency / 100) else 0
  let bandwidth_score : ℚ := if b.bandwidth > 0 then min 1 (b.bandwidth / 1000000) else 0
  let connection_score : ℚ :=
    if b.connection_count > 0 then max 0 (1 - (b.connection_count : ℚ) / 100) else 0
  let s := latency_score * weights.latency + bandwidth_score * weights.bandwidth +
           connection_score * weights.connection
  { b with score := if b.is_available then s else 0 }

/-- Registry state, from `BrokerListManager` in `broker_list_manager.h`. -/
structure BrokerListManager where
  brokers : List BrokerInfo
  current_broker_index : ℕ
  category : String
deriving DecidableEq

/-- Rewrite the first record satisfying the predicate (the C++ loops all
`break` after the first URI match). -/
def modify_first (p : BrokerInfo → Bool) (f : BrokerInfo → BrokerInfo) :
    List BrokerInfo → List BrokerInfo
  | [] => []
  | b :: rest => if p b then f b :: rest else b :: modify_first p f rest

/-- `BrokerListManager::add_broker`: no-op when the URI is already present,
else append a fresh record; the first broker becomes current. -/
def add_broker (uri : String) (now : ℕ) (reg : BrokerListManager) : BrokerListManager :=
  if reg.brokers.any (fun b => b.uri = uri) then reg
  else
    let brokers := reg.brokers ++ [mkBrokerInfo uri now]
    { reg with
      brokers := brokers
      current_broker_index :=
        if brokers.length = 1 then 0 else reg.current_broker_index }

/-- `BrokerListManager::remove_broker`: erase the first record with the URI
and re-anchor the current index as in the source. -/
def remove_broker (uri : String) (reg : BrokerListManager) : BrokerListManager :=
  match reg.brokers.findIdx? (fun b => b.uri = uri) with
  | none => reg
  | some i =>
    let brokers := reg.brokers.eraseIdx i
    let ci := reg.current_broker_index
    { reg with
      brokers := brokers
      current_broker_index :=
        if i = ci then
          if brokers.isEmpty then 0
          else if brokers.length ≤ ci then brokers.length - 1
          else ci
        else if i < ci then ci - 1 else ci }

/-- `BrokerListManager::clear_brokers`. -/
def clear_brokers (reg : BrokerListManager) : BrokerListManager :=
  { reg with brokers := [], current_broker_index := 0 }

/-- `BrokerListManager::get_current_broker_internal`: null when the index is
out of range (or the list empty). -/
def get_current_broker (reg : BrokerListManager) : Option BrokerInfo :=
  reg.brokers[reg.current_broker_index]?

/-- `BrokerListManager::get_current_broker_uri`: empty string when absent. -/
def get_current_broker_uri (reg : BrokerListManager) : String :=
  ((get_current_broker reg).map (fun b => b.uri)).getD ""

/-- `BrokerListManager::set_current_broker`: point the current index at the
first record with the URI; report whether it was found. -/
def set_current_broker (uri : String) (reg : BrokerListManager) :
    Bool × BrokerListManager :=
  match reg.brokers.findIdx? (fun b => b.uri = uri) with
  | some i => (true, { reg with current_broker_index := i })
  | none => (false, reg)

/-- `BrokerListManager::find_best_broker_internal`: scan for the available
record with the highest score, starting from a sentinel best score of -1;
ties keep the earlier record. -/
def find_best_broker (reg : BrokerListManager) : Option BrokerInfo :=
  (reg.brokers.foldl
    (fun (acc : Option BrokerInfo × ℚ) b =>
      if b.is_available && acc.2 < b.score then (some b, b.score) else acc)
    (none, -1)).1

/-- `BrokerListManager::should_switch_broker`: false when current or best is
absent; when their URIs differ, switch iff the score difference exceeds the
0.1 hysteresis threshold. -/
def should_switch_broker (reg : BrokerListManager) : Bool :=
  match get_current_broker reg, find_best_broker reg with
  | some cur, some best =>
    if cur.uri ≠ best.uri then decide (best.score - cur.score > 1/10) else false
  | _, _ => false

/-- `BrokerListManager::update_broker_metrics`: overwrite the three metrics of
the first matching record, stamp `last_check`, recompute the score with the
category weights. -/
def update_broker_metrics (uri : String) (latency bandwidth : ℚ)
    (connection_count : ℤ) (now : ℕ) (reg : BrokerListManager) : BrokerListManager :=
  let weights := weights_for reg.category
  { reg with
    brokers := modify_first (fun b => b.uri = uri)
      (fun b => update_score weights
        { b with latency := latency, bandwidth := bandwidth,
                 connection_count := connection_count, last_check := now })
      reg.brokers }

/-- `BrokerListManager::mark_broker_unavailable`: clear the availability flag
and force the score to 0 on the first matching record. -/
def mark_broker_unavailable (uri : String) (reg : BrokerListManager) :
    BrokerListManager :=
  { reg with
    brokers := modify_first (fun b => b.uri = uri)
      (fun b => { b with is_available := false, score := 0 }) reg.brokers }

/-- `BrokerListManager::mark_broker_available`: set the availability flag and
recompute the score with the category weights. -/
def mark_broker_available (uri : String) (reg : BrokerListManager) :
    BrokerListManager :=
  let weights := weights_for reg.category
  { reg with
    brokers := modify_first (fun b => b.uri = uri)
      (fun b => update_score weights { b with is_available := true }) reg.brokers }

/-- Queued publish, from `SelfAdaptiveMqttManager::QueuedMessage`. -/
structure QueuedMessage where
  topic : String
  payload : String
  qos : ℤ
  retained : Bool
  timestamp : ℕ
deriving DecidableEq

/-- `MAX_QUEUE_SIZE` from `mqtt_manager.h`. -/
def MAX_QUEUE_SIZE : ℕ := 1000

/-- `SelfAdaptiveMqttManager::add_message_to_queue`: when the queue already
holds `MAX_QUEUE_SIZE` entries, pop the oldest first, then append.
The list head is the queue front (oldest entry). -/
def add_message_to_queue (q : List QueuedMessage) (m : QueuedMessage) :
    List QueuedMessage :=
  let q := if MAX_QUEUE_SIZE ≤ q.length then q.tail else q
  q ++ [m]

/-- `SelfAdaptiveMqttManager::resend_queued_messages`, with the active
client's publish modelled as a boolean oracle (false = the publish throws).
Returns the messages forwarded, in order, and the remaining queue: each
entry is popped only after its publish succeeded, and the loop breaks at
the first failure, leaving that entry and all later ones queued. -/
def resend_queued_messages (pub : QueuedMessage → Bool) :
    List QueuedMessage → List QueuedMessage × List QueuedMessage
  | [] => ([], [])
  | m :: rest =>
    if pub m then
      let r := resend_queued_messages pub rest
      (m :: r.1, r.2)
    else ([], m :: rest)

/-- Session-manager state, from `SelfAdaptiveMqttManager` in `mqtt_manager.h`.
`has_client` models whether the active-client slot holds a client. -/
structure MqttManager where
  is_connected : Bool
  is_connecting : Bool
  has_client : Bool
  registry : BrokerListManager
  queue : List QueuedMessage
  current_broker_try_index : ℕ
deriving DecidableEq

/-- The snapshot of available brokers taken by `connect`,
`switch_to_best_broker` and `handle_connection_failure`: URIs of available
records, in registration order. -/
def avail_uris (reg : BrokerListManager) : List String :=
  (reg.brokers.filter (fun b => b.is_available)).map (fun b => b.uri)

/-- `SelfAdaptiveMqttManager::publish(topic, payload, qos, retained)`, with
the active client's publish modelled as `client_pub` (`none` = it throws,
`some tok` = it returns delivery token `tok`): when disconnected, or when
the forward throws, enqueue and return no token. -/
def publish (client_pub : Option ℕ) (topic payload : String) (qos : ℤ)
    (retained : Bool) (now : ℕ) (st : MqttManager) : Option ℕ × MqttManager :=
  if st.is_connected = false then
    (none, { st with queue := add_message_to_queue st.queue ⟨topic, payload, qos, retained, now⟩ })
  else
    match client_pub with
    | some tok => (some tok, st)
    | none =>
      (none, { st with queue := add_message_to_queue st.queue ⟨topic, payload, qos, retained, now⟩ })

/-- The fall-through loop inside `SelfAdaptiveMqttManager::connect`: try each
URI of the snapshot in turn (`net` = whether `try_connect_to_broker`
succeeds; it creates a client either way); on success, set the broker
current, record its snapshot position, resend the queued messages; on
failure, mark it unavailable and continue; all exhausted gives false. -/
def connect_go (net : String → Bool) (pub : QueuedMessage → Bool) :
    List String → ℕ → MqttManager → Bool × MqttManager
  | [], _, st => (false, { st with is_connecting := false })
  | uri :: rest, i, st =>
    let st := { st with has_client := true }
    if net uri then
      (true,
       { st with
         registry := (set_current_broker uri st.registry).2
         is_connected := true
         is_connecting := false
         current_broker_try_index := i
         queue := (resend_queued_messages pub st.queue).2 })
    else
      connect_go net pub rest (i + 1)
        { st with registry := mark_broker_unavailable uri st.registry }

/-- `SelfAdaptiveMqttManager::connect`: idempotent when already connected or
connecting; otherwise snapshot the available brokers and run the
fall-through loop. -/
def connect (net : String → Bool) (pub : QueuedMessage → Bool)
    (st : MqttManager) : Bool × MqttManager :=
  if st.is_connected || st.is_connecting then (st.is_connected, st)
  else
    let st := { st with is_connecting := true }
    let broker_uris := avail_uris st.registry
    if broker_uris.isEmpty then (false, { st with is_connecting := false })
    else connect_go net pub broker_uris 0 st

/-- `SelfAdaptiveMqttManager::handle_connection_failure`, with explicit fuel
(the recursion consumes one available broker per call, so any fuel above
the broker count is exact): mark the failed URI unavailable, re-snapshot,
and try the broker at the current try cursor; on failure advance the cursor
and recurse; when the cursor passes the end, reset it and give up. -/
def handle_connection_failure (net : String → Bool) (pub : QueuedMessage → Bool) :
    ℕ → String → MqttManager → MqttManager
  | 0, _, st => st
  | fuel + 1, failed_uri, st =>
    let st := { st with registry := mark_broker_unavailable failed_uri st.registry }
    let broker_uris := avail_uris st.registry
    if broker_uris.isEmpty then st
    else if h : st.current_broker_try_index < broker_uris.length then
      let next_uri := broker_uris.get ⟨st.current_broker_try_index, h⟩
      let st := { st with has_client := true }
      if net next_uri then
        { st with
          registry := (set_current_broker next_uri st.registry).2
          is_connected := true
          is_connecting := false
          current_broker_try_index := 0
          queue := (resend_queued_messages pub st.queue).2 }
      else
        handle_connection_failure net pub fuel next_uri
          { st with current_broker_try_index := st.current_broker_try_index + 1 }
    else
      { st with current_broker_try_index := 0, is_connecting := false }

/-- `SelfAdaptiveMqttManager::switch_to_best_broker`: no-op while a connect
attempt is in flight; otherwise destroy the active client, snapshot the
available brokers, clamp the try cursor, and attempt the broker at the
cursor position of the availability-ordered snapshot (it does not consult
`find_best_broker`); on failure fall through via
`handle_connection_failure`. -/
def switch_to_best_broker (net : String → Bool) (pub : QueuedMessage → Bool)
    (st : MqttManager) : MqttManager :=
  if st.is_connecting then st
  else
    let st := { st with is_connecting := true, has_client := false }
    let broker_uris := avail_uris st.registry
    if broker_uris.isEmpty then { st with is_connecting := false }
    else
      let st :=
        if broker_uris.length ≤ st.current_broker_try_index then
          { st with current_broker_try_index := 0 }
        else st
      let target_uri := broker_uris.getD st.current_broker_try_index ""
      let st := { st with has_client := true }
      if net target_uri then
        { st with
          registry := (set_current_broker target_uri st.registry).2
          is_connected := true
          is_connecting := false
          current_broker_try_index := 0
          queue := (resend_queued_messages pub st.queue).2 }
      else
        let st := { st with current_broker_try_index := st.current_broker_try_index + 1 }
        let st := handle_connection_failure net pub
          (st.registry.brokers.length + 1) target_uri st
        { st with is_connecting := false }

/-- `SelfAdaptiveMqttManager::on_broker_switch`: consult
`should_switch_broker` and, on confirmation, run `switch_to_best_broker`. -/
def on_broker_switch (net : String → Bool) (pub : QueuedMessage → Bool)
    (new_broker_uri : String) (st : MqttManager) : MqttManager :=
  if should_switch_broker st.registry then switch_to_best_broker net pub st
  else st

/-- Concrete broker record used to instantiate `update_score_formula`:
latency 50 ms, bandwidth 500000 B/s, 50 connections (spec scenario 5). -/
def witnessBroker : BrokerInfo := ⟨"mqtt://localhost:1883", 50, 500000, 50, 0, true, 0⟩

/-- Manager state used to instantiate `publish_queues_on_failure`:
disconnected, empty queue. -/
def witnessDisconnected : MqttManager :=
  ⟨false, false, false, ⟨[], 0, "sensor"⟩, [], 0⟩

/-- Concrete queued message number `i` of a test stream. -/
def witnessMsg (i : ℕ) : QueuedMessage := ⟨"t", toString i, 1, false, i⟩

/-- Registry holding one freshly added, never-measured broker: zero metrics,
zero score, available. -/
def freshReg : BrokerListManager :=
  ⟨[mkBrokerInfo "mqtt://localhost:1883" 0], 0, "sensor"⟩

/-- The per-record invariant of the spec: score within [0, 1], and a
cleared availability flag forces score 0. -/
def BrokerInv (b : BrokerInfo) : Prop :=
  0 ≤ b.score ∧ b.score ≤ 1 ∧ (b.is_available = false → b.score = 0)

/-- The registry invariant: every record satisfies `BrokerInv`. -/
def RegInv (reg : BrokerListManager) : Prop :=
  ∀ b ∈ reg.brokers, BrokerInv b

/-- A weight profile with nonnegative components summing to 1. -/
def ValidWeights (w : ScoreWeights) : Prop :=
  0 ≤ w.latency ∧ 0 ≤ w.bandwidth ∧ 0 ≤ w.connection ∧
    w.latency + w.bandwidth + w.connection = 1

/-- Reachable-state shape of the registry: the current index is 0 when the
registry is empty and in range otherwise. -/
def RegWF (reg : BrokerListManager) : Prop :=
  (reg.brokers = [] → reg.current_broker_index = 0) ∧
  (reg.brokers ≠ [] → reg.current_broker_index < reg.brokers.length)

/-- Registry used to refute C9 as stated: the URI is already present, so
`add_broker` is a no-op but `remove_broker` deletes the existing record. -/
def dupReg : BrokerListManager := ⟨[⟨"mqtt://a", 0, 0, 0, 0, true, 0⟩], 0, "sensor"⟩

/-- Mark every URI of the list unavailable, in order. -/
def mark_all_unavailable (uris : List String) (reg : BrokerListManager) :
    BrokerListManager :=
  uris.foldl (fun r v => mark_broker_unavailable v r) reg

/-- The state `connect` reaches when the fall-through succeeds on `uri`
after the prefix `failed` of the snapshot has failed: connected, client
present, failed brokers marked unavailable, `uri` current, try cursor at
the snapshot position, queue flushed. -/
def connect_success_state (pub : QueuedMessage → Bool) (st : MqttManager)
    (uri : String) (failed : List String) : MqttManager :=
  { st with
    has_client := true
    is_connected := true
    is_connecting := false
    current_broker_try_index := failed.length
    registry := (set_current_broker uri (mark_all_unavailable failed st.registry)).2
    queue := (resend_queued_messages pub st.queue).2 }

/-- The state `connect` reaches when every broker of the snapshot `avail`
failed (or the snapshot was empty): not connected, every snapshot entry
marked unavailable, a client left over iff one was created. -/
def connect_fail_state (st : MqttManager) (avail : List String) : MqttManager :=
  { st with
    is_connecting := false
    has_client := st.has_client || !avail.isEmpty
    registry := mark_all_unavailable avail st.registry }

/-- Two-broker registry, both available, never measured. -/
def regAB : BrokerListManager :=
  ⟨[⟨"mqtt://a", 0, 0, 0, 0, true, 0⟩, ⟨"mqtt://b", 0, 0, 0, 0, true, 0⟩], 0, "sensor"⟩

/-- Disconnected manager over `regAB`. -/
def stIdle : MqttManager := ⟨false, false, false, regAB, [], 0⟩

/-- Already-connected manager over `regAB`. -/
def stBusy : MqttManager := ⟨true, false, true, regAB, [], 0⟩

/-- Network oracle where only broker b accepts connections. -/
def netB : String → Bool := fun u => u == "mqtt://b"

/-- Network oracle where every connection attempt fails. -/
def netNone : String → Bool := fun _ => false

/-- Client-publish oracle that always succeeds. -/
def pubOk : QueuedMessage → Bool := fun _ => true

/-- Current broker of the C1 scenario: score 0.2, available. -/
def brokerLow : BrokerInfo := ⟨"mqtt://a", 0, 0, 0, 2/10, true, 0⟩

/-- Best-scored broker of the C1 scenario: score 0.9, available. -/
def brokerHigh : BrokerInfo := ⟨"mqtt://b", 0, 0, 0, 9/10, true, 0⟩

/-- Registry where the current broker a is dominated by broker b. -/
def switchReg : BrokerListManager := ⟨[brokerLow, brokerHigh], 0, "sensor"⟩

/-- Manager connected to broker a with try cursor 0, receiving the switch
suggestion. -/
def switchSt : MqttManager := ⟨true, false, true, switchReg, [], 0⟩

/-! ### Theorems -/

/-- C2: for every metrics triple and every weight profile from the category
table, `update_score` sets the score to the weighted sum of the clamped
latency, bandwidth and connection components (each zero when its metric is
not positive), and to 0 when the broker is unavailable. Determinism is
inherent: the embedding is a pure function of its arguments. -/
theorem update_score_formula (c : String) (w : ScoreWeights) (b : BrokerInfo)
    (hw : (c, w) ∈ CATEGORY_WEIGHTS) :
    (update_score w b).score =
      if b.is_available then
        w.latency * (if b.latency > 0 then max 0 (1 - b.latency / 100) else 0) +
        w.bandwidth * (if b.bandwidth > 0 then min 1 (b.bandwidth / 1000000) else 0) +
        w.connection *
          (if b.connection_count > 0 then max 0 (1 - (b.connection_count : ℚ) / 100) else 0)
      else 0 := by
  cases hb : b.is_available
  · simp [update_score, hb]
  · simp only [update_score, hb, if_true]
    ring_nf

theorem update_score_formula_witness :
    ("camera", (⟨2/10, 6/10, 2/10⟩ : ScoreWeights)) ∈ CATEGORY_WEIGHTS ∧
    (update_score ⟨2/10, 6/10, 2/10⟩ witnessBroker).score = 1/2 := by
  have hmem : ("camera", (⟨2/10, 6/10, 2/10⟩ : ScoreWeights)) ∈ CATEGORY_WEIGHTS := by
    norm_num [CATEGORY_WEIGHTS]
  refine ⟨hmem, ?_⟩
  rw [update_score_formula "camera" ⟨2/10, 6/10, 2/10⟩ witnessBroker hmem]
  norm_num [witnessBroker]

/-- C3: `should_switch_broker` is true iff a current record and a best record
both exist, their URIs differ, and the best score exceeds the current score
by more than the 0.1 hysteresis threshold; in particular it is false when
either is absent or when they coincide. -/
theorem should_switch_iff (reg : BrokerListManager) :
    should_switch_broker reg = true ↔
      ∃ cur best, get_current_broker reg = some cur ∧
        find_best_broker reg = some best ∧
        cur.uri ≠ best.uri ∧ best.score - cur.score > 1/10 := by
  unfold should_switch_broker
  rcases hc : get_current_broker reg with _ | cur <;>
    rcases hb : find_best_broker reg with _ | best <;>
      simp [hc, hb]

/-- C6: `resend_queued_messages` forwards the longest successful prefix of
the queue to the client in FIFO order, and on the first failing publish it
stops, leaving the failed entry and every later entry queued in their
original order. -/
theorem resend_queued_messages_fifo (pub : QueuedMessage → Bool)
    (q : List QueuedMessage) :
    resend_queued_messages pub q = (q.takeWhile pub, q.dropWhile pub) := by
  induction q with
  | nil => rfl
  | cons m rest ih =>
    by_cases h : pub m <;>
      simp [resend_queued_messages, List.takeWhile_cons, List.dropWhile_cons, h, ih]

/-- C7: when the manager is disconnected, or the forward to the active client
throws (`client_pub = none`), `publish` appends the message to the offline
queue and returns no token; the disconnected path never consults the client,
so no exception can propagate. -/
theorem publish_queues_on_failure (client_pub : Option ℕ)
    (topic payload : String) (qos : ℤ) (retained : Bool) (now : ℕ)
    (st : MqttManager)
    (h : st.is_connected = false ∨ client_pub = none) :
    publish client_pub topic payload qos retained now st =
      (none,
       { st with
         queue := add_message_to_queue st.queue ⟨topic, payload, qos, retained, now⟩ }) := by
  rcases h with h | h
  · simp [publish, h]
  · subst h
    unfold publish
    by_cases hc : st.is_connected = false <;> simp [hc]

theorem publish_queues_on_failure_witness :
    (witnessDisconnected.is_connected = false ∨ (some 7 : Option ℕ) = none) ∧
    publish (some 7) "topic" "payload" 1 false 0 witnessDisconnected =
      (none,
       { witnessDisconnected with
         queue := add_message_to_queue witnessDisconnected.queue
           ⟨"topic", "payload", 1, false, 0⟩ }) :=
  ⟨Or.inl rfl,
   publish_queues_on_failure (some 7) "topic" "payload" 1 false 0
     witnessDisconnected (Or.inl rfl)⟩

/-- Enqueueing into a queue of at most `MAX_QUEUE_SIZE` entries yields the
suffix of the accumulated stream that fits: the first
`length - MAX_QUEUE_SIZE` entries have been dropped, oldest first. -/
theorem foldl_add_message_drop (msgs : List QueuedMessage) :
    ∀ q : List QueuedMessage, q.length ≤ MAX_QUEUE_SIZE →
      List.foldl add_message_to_queue q msgs =
        (q ++ msgs).drop (q.length + msgs.length - MAX_QUEUE_SIZE) := by
  induction msgs with
  | nil =>
    intro q hq
    simp [Nat.sub_eq_zero_of_le hq]
  | cons m rest ih =>
    intro q hq
    simp only [List.foldl_cons]
    by_cases hfull : MAX_QUEUE_SIZE ≤ q.length
    · have hlen : q.length = MAX_QUEUE_SIZE := le_antisymm hq hfull
      rcases q with _ | ⟨a, q⟩
      · simp [MAX_QUEUE_SIZE] at hlen
      · have hadd : add_message_to_queue (a :: q) m = q ++ [m] := by
          unfold add_message_to_queue
          rw [if_pos hfull]
          rfl
        rw [hadd]
        have hlen2 : (q ++ [m]).length ≤ MAX_QUEUE_SIZE := by
          simp at hlen ⊢
          omega
        rw [ih (q ++ [m]) hlen2]
        have h1 : (q ++ [m]).length + rest.length - MAX_QUEUE_SIZE = rest.length := by
          simp at hlen ⊢
          omega
        have h2 : (a :: q).length + (m :: rest).length - MAX_QUEUE_SIZE =
            rest.length + 1 := by
          simp at hlen ⊢
          omega
        rw [h1, h2]
        simp [List.drop_succ_cons]
    · have hadd : add_message_to_queue q m = q ++ [m] := by
        simp [add_message_to_queue, hfull]
      rw [hadd]
      have hlen2 : (q ++ [m]).length ≤ MAX_QUEUE_SIZE := by
        simp
        omega
      rw [ih (q ++ [m]) hlen2]
      have h1 : (q ++ [m]).length + rest.length = q.length + (m :: rest).length := by
        simp
        omega
      rw [h1]
      simp

/-- C5: starting from the empty queue, (a) the queue never exceeds
`MAX_QUEUE_SIZE` entries, (b) an enqueue against a full queue pops exactly
the oldest entry before appending, and (c) enqueueing 1001 messages leaves
exactly the last 1000, in order (messages 2..1001 of the stream). -/
theorem offline_queue_bounded :
    (∀ msgs : List QueuedMessage,
      (List.foldl add_message_to_queue [] msgs).length ≤ MAX_QUEUE_SIZE) ∧
    (∀ (q : List QueuedMessage) (m : QueuedMessage), q.length = MAX_QUEUE_SIZE →
      add_message_to_queue q m = q.tail ++ [m]) ∧
    (∀ msgs : List QueuedMessage, msgs.length = MAX_QUEUE_SIZE + 1 →
      List.foldl add_message_to_queue [] msgs = msgs.drop 1) := by
  refine ⟨fun msgs => ?_, fun q m hq => ?_, fun msgs hmsgs => ?_⟩
  · rw [foldl_add_message_drop msgs [] (by simp)]
    simp only [List.length_drop, List.nil_append, List.length_nil, Nat.zero_add]
    omega
  · simp [add_message_to_queue, le_of_eq hq.symm]
  · rw [foldl_add_message_drop msgs [] (by simp), hmsgs]
    simp

theorem offline_queue_bounded_witness :
    (List.foldl add_message_to_queue [] ((List.range 3).map witnessMsg)).length ≤
      MAX_QUEUE_SIZE ∧
    ((List.replicate MAX_QUEUE_SIZE (witnessMsg 0)).length = MAX_QUEUE_SIZE ∧
      add_message_to_queue (List.replicate MAX_QUEUE_SIZE (witnessMsg 0)) (witnessMsg 1) =
        (List.replicate MAX_QUEUE_SIZE (witnessMsg 0)).tail ++ [witnessMsg 1]) ∧
    (((List.range (MAX_QUEUE_SIZE + 1)).map witnessMsg).length = MAX_QUEUE_SIZE + 1 ∧
      List.foldl add_message_to_queue [] ((List.range (MAX_QUEUE_SIZE + 1)).map witnessMsg) =
        ((List.range (MAX_QUEUE_SIZE + 1)).map witnessMsg).drop 1) :=
  ⟨offline_queue_bounded.1 _,
   ⟨by simp, offline_queue_bounded.2.1 _ _ (by simp)⟩,
   ⟨by simp, offline_queue_bounded.2.2 _ (by simp)⟩⟩

/-- Once the scan inside `find_best_broker` holds a candidate, it keeps
holding one. -/
theorem find_best_scan_keeps_some (l : List BrokerInfo) :
    ∀ acc : Option BrokerInfo × ℚ, acc.1.isSome = true →
      ((l.foldl (fun (acc : Option BrokerInfo × ℚ) b =>
          if b.is_available && acc.2 < b.score then (some b, b.score) else acc)
        acc).1.isSome = true) := by
  induction l with
  | nil => intro acc h; simpa using h
  | cons b rest ih =>
    intro acc h
    simp only [List.foldl_cons]
    by_cases hcond : (b.is_available && decide (acc.2 < b.score)) = true
    · rw [if_pos hcond]
      exact ih (some b, b.score) rfl
    · rw [if_neg hcond]
      exact ih acc h

/-- The scan of `find_best_broker` yields a candidate whenever the remaining
list holds an available record of nonnegative score, or the accumulator
already holds one; the sentinel invariant is that an empty accumulator
carries best score -1. -/
theorem find_best_scan_aux (l : List BrokerInfo) :
    ∀ acc : Option BrokerInfo × ℚ,
      (acc.1 = none → acc.2 = -1) →
      ((∃ b ∈ l, b.is_available = true ∧ 0 ≤ b.score) ∨ acc.1.isSome = true) →
      ((l.foldl (fun (acc : Option BrokerInfo × ℚ) b =>
          if b.is_available && acc.2 < b.score then (some b, b.score) else acc)
        acc).1.isSome = true) := by
  induction l with
  | nil =>
    intro acc _ h
    rcases h with h | h
    · simp at h
    · simpa using h
  | cons b rest ih =>
    intro acc hinv h
    simp only [List.foldl_cons]
    by_cases hcond : (b.is_available && decide (acc.2 < b.score)) = true
    · rw [if_pos hcond]
      exact find_best_scan_keeps_some rest (some b, b.score) rfl
    · rw [if_neg hcond]
      refine ih acc hinv ?_
      rcases h with h | h
      · rcases h with ⟨w, hw, hwa, hws⟩
        rcases List.mem_cons.mp hw with rfl | hw2
        · right
          have hcond2 : ¬ (w.is_available = true ∧ acc.2 < w.score) := by
            simpa [Bool.and_eq_true, decide_eq_true_eq] using hcond
          have hle : w.score ≤ acc.2 := by
            by_contra hlt
            exact hcond2 ⟨hwa, lt_of_not_le hlt⟩
          rcases hacc : acc.1 with _ | x
          · have h1 := hinv hacc
            have h2 : (0:ℚ) ≤ -1 := h1 ▸ le_trans hws hle
            norm_num at h2
          · simp
        · exact Or.inl ⟨w, hw2, hwa, hws⟩
      · exact Or.inr h

/-- C10: whenever at least one registered broker is available with a
nonnegative (in particular, zero) score, `find_best_broker` returns a
record, because the scan starts from a sentinel best score of -1. -/
theorem find_best_broker_of_available (reg : BrokerListManager)
    (h : ∃ b ∈ reg.brokers, b.is_available = true ∧ 0 ≤ b.score) :
    (find_best_broker reg).isSome = true := by
  unfold find_best_broker
  exact find_best_scan_aux reg.brokers (none, -1) (fun _ => rfl) (Or.inl h)

theorem find_best_broker_of_available_witness :
    (∃ b ∈ freshReg.brokers, b.is_available = true ∧ 0 ≤ b.score) ∧
    (find_best_broker freshReg).isSome = true ∧
    find_best_broker freshReg = some (mkBrokerInfo "mqtt://localhost:1883" 0) := by
  have hex : ∃ b ∈ freshReg.brokers, b.is_available = true ∧ 0 ≤ b.score :=
    ⟨mkBrokerInfo "mqtt://localhost:1883" 0, by simp [freshReg], rfl, le_refl 0⟩
  refine ⟨hex, find_best_broker_of_available freshReg hex, ?_⟩
  have hlt : ((-1:ℚ) < 0) := by norm_num
  simp [find_best_broker, freshReg, mkBrokerInfo, hlt]

/-- A successful lookup returns one of the table's values. -/
theorem lookup_weights_mem (c : String) (w : ScoreWeights) :
    ∀ l : List (String × ScoreWeights),
      lookup_weights l c = some w → w ∈ l.map Prod.snd := by
  intro l
  induction l with
  | nil => intro h; simp [lookup_weights] at h
  | cons p rest ih =>
    intro h
    rcases p with ⟨k, v⟩
    rw [lookup_weights] at h
    by_cases hk : k = c
    · rw [if_pos hk] at h
      have hv : v = w := Option.some_inj.mp h
      subst hv
      simp
    · rw [if_neg hk] at h
      simp [ih h]

/-- Every weight profile the registry can use — any table entry or the
sensor fallback — is valid. -/
theorem weights_for_valid (c : String) : ValidWeights (weights_for c) := by
  have htable : ∀ w ∈ CATEGORY_WEIGHTS.map Prod.snd, ValidWeights w := by
    intro w hw
    fin_cases hw <;> norm_num [ValidWeights]
  unfold weights_for
  rcases h : lookup_weights CATEGORY_WEIGHTS c with _ | w
  · norm_num [ValidWeights]
  · simpa using htable w (lookup_weights_mem c w CATEGORY_WEIGHTS h)

/-- Bounds for the latency- and connection-style component. -/
theorem latency_component_bounds (x : ℚ) :
    0 ≤ (if x > 0 then max 0 (1 - x / 100) else 0) ∧
      (if x > 0 then max 0 (1 - x / 100) else 0) ≤ 1 := by
  by_cases h : x > 0
  · rw [if_pos h]
    refine ⟨le_max_left 0 _, max_le (by norm_num) ?_⟩
    have hx : 0 ≤ x / 100 := by positivity
    linarith
  · rw [if_neg h]
    norm_num

/-- Bounds for the bandwidth component. -/
theorem bandwidth_component_bounds (x : ℚ) :
    0 ≤ (if x > 0 then min 1 (x / 1000000) else 0) ∧
      (if x > 0 then min 1 (x / 1000000) else 0) ≤ 1 := by
  by_cases h : x > 0
  · rw [if_pos h]
    refine ⟨le_min (by norm_num) ?_, min_le_left 1 _⟩
    positivity
  · rw [if_neg h]
    norm_num

/-- Bounds for the connection component (integer connection count). -/
theorem connection_component_bounds (n : ℤ) :
    0 ≤ (if n > 0 then max 0 (1 - (n : ℚ) / 100) else 0) ∧
      (if n > 0 then max 0 (1 - (n : ℚ) / 100) else 0) ≤ 1 := by
  by_cases h : n > 0
  · rw [if_pos h]
    refine ⟨le_max_left 0 _, max_le (by norm_num) ?_⟩
    have hn : (0:ℚ) ≤ (n : ℚ) := by exact_mod_cast h.le
    have hx : (0:ℚ) ≤ (n : ℚ) / 100 := by positivity
    linarith
  · rw [if_neg h]
    norm_num

/-- `update_score` always writes a score satisfying the record invariant
when its weights are valid, whatever the input record held. -/
theorem update_score_inv (w : ScoreWeights) (hw : ValidWeights w)
    (b : BrokerInfo) : BrokerInv (update_score w b) := by
  obtain ⟨hl, hb, hc, hsum⟩ := hw
  obtain ⟨hls0, hls1⟩ := latency_component_bounds b.latency
  obtain ⟨hbs0, hbs1⟩ := bandwidth_component_bounds b.bandwidth
  obtain ⟨hcs0, hcs1⟩ := connection_component_bounds b.connection_count
  constructor
  · simp only [update_score]
    split
    · exact add_nonneg (add_nonneg (mul_nonneg hls0 hl) (mul_nonneg hbs0 hb))
        (mul_nonneg hcs0 hc)
    · exact le_refl 0
  constructor
  · simp only [update_score]
    split
    · have h1 : (if b.latency > 0 then max 0 (1 - b.latency / 100) else 0) * w.latency ≤
          w.latency := mul_le_of_le_one_left hl hls1
      have h2 : (if b.bandwidth > 0 then min 1 (b.bandwidth / 1000000) else 0) * w.bandwidth ≤
          w.bandwidth := mul_le_of_le_one_left hb hbs1
      have h3 : (if b.connection_count > 0 then
            max 0 (1 - (b.connection_count : ℚ) / 100) else 0) * w.connection ≤
          w.connection := mul_le_of_le_one_left hc hcs1
      linarith
    · norm_num
  · intro hav
    simp only [update_score]
    have hbav : b.is_available = false := hav
    rw [if_neg (by simp [hbav])]

/-- `modify_first` preserves a pointwise property when the rewriting
function unconditionally establishes it. -/
theorem modify_first_inv (p : BrokerInfo → Bool) (f : BrokerInfo → BrokerInfo)
    (hf : ∀ b, BrokerInv (f b)) :
    ∀ l : List BrokerInfo, (∀ b ∈ l, BrokerInv b) →
      ∀ b ∈ modify_first p f l, BrokerInv b := by
  intro l
  induction l with
  | nil => intro _ b hb; simp [modify_first] at hb
  | cons a rest ih =>
    intro hl b hb
    rw [modify_first] at hb
    by_cases hp : p a
    · rw [if_pos hp] at hb
      rcases List.mem_cons.mp hb with heq | hb2
      · exact heq ▸ hf a
      · exact hl b (List.mem_cons_of_mem a hb2)
    · rw [if_neg hp] at hb
      rcases List.mem_cons.mp hb with heq | hb2
      · exact heq ▸ hl a (List.mem_cons_self a rest)
      · exact ih (fun x hx => hl x (List.mem_cons_of_mem a hx)) b hb2

/-- C8: every registry operation preserves the invariant that each record's
score lies in [0, 1] and that an unavailable record scores 0. -/
theorem registry_ops_preserve_inv (reg : BrokerListManager) (h : RegInv reg)
    (uri : String) (latency bandwidth : ℚ) (connection_count : ℤ)
    (now now2 : ℕ) :
    RegInv (add_broker uri now reg) ∧
    RegInv (remove_broker uri reg) ∧
    RegInv (update_broker_metrics uri latency bandwidth connection_count now2 reg) ∧
    RegInv (mark_broker_unavailable uri reg) ∧
    RegInv (mark_broker_available uri reg) ∧
    RegInv (set_current_broker uri reg).2 := by
  have hvalid := weights_for_valid reg.category
  refine ⟨?_, ?_, ?_, ?_, ?_, ?_⟩
  · unfold add_broker
    split
    · exact h
    · intro b hb
      rcases List.mem_append.mp hb with hb2 | hb2
      · exact h b hb2
      · rcases List.mem_singleton.mp hb2 with rfl
        exact ⟨le_refl 0, by norm_num [mkBrokerInfo], fun _ => rfl⟩
  · unfold remove_broker
    split
    · exact h
    · intro b hb
      exact h b (List.mem_of_mem_eraseIdx hb)
  · unfold update_broker_metrics
    exact modify_first_inv _ _ (fun b => update_score_inv _ hvalid _) reg.brokers h
  · unfold mark_broker_unavailable
    exact modify_first_inv _ _
      (fun b => ⟨le_refl 0, by norm_num, fun _ => rfl⟩) reg.brokers h
  · unfold mark_broker_available
    exact modify_first_inv _ _ (fun b => update_score_inv _ hvalid _) reg.brokers h
  · unfold set_current_broker
    split
    · exact h
    · exact h

theorem registry_ops_preserve_inv_witness :
    RegInv freshReg ∧
    (RegInv (add_broker "mqtt://other" 3 freshReg) ∧
      RegInv (remove_broker "mqtt://other" freshReg) ∧
      RegInv (update_broker_metrics "mqtt://other" 50 500000 50 3 freshReg) ∧
      RegInv (mark_broker_unavailable "mqtt://other" freshReg) ∧
      RegInv (mark_broker_available "mqtt://other" freshReg) ∧
      RegInv (set_current_broker "mqtt://other" freshReg).2) := by
  have hinv : RegInv freshReg := by
    intro b hb
    simp [freshReg, mkBrokerInfo] at hb
    subst hb
    exact ⟨le_refl 0, by norm_num, fun _ => rfl⟩
  exact ⟨hinv, registry_ops_preserve_inv freshReg hinv "mqtt://other" 50 500000 50 3 3⟩

/-- Erasing the element just appended at the end recovers the list. -/
theorem eraseIdx_append_singleton (x : BrokerInfo) :
    ∀ l : List BrokerInfo, (l ++ [x]).eraseIdx l.length = l := by
  intro l
  induction l with
  | nil => rfl
  | cons a rest ih => simp [List.eraseIdx_cons_succ, ih]

/-- When no element of `l` matches but `x` does, the first match in
`l ++ [x]` sits at position `l.length` (shifted by the accumulator). -/
theorem findIdx?_append_singleton (p : BrokerInfo → Bool) (x : BrokerInfo)
    (hx : p x = true) :
    ∀ (l : List BrokerInfo) (i : ℕ), (∀ b ∈ l, p b = false) →
      List.findIdx? p (l ++ [x]) i = some (i + l.length) := by
  intro l
  induction l with
  | nil =>
    intro i _
    simp [List.findIdx?_cons, hx]
  | cons a rest ih =>
    intro i hl
    rw [List.cons_append, List.findIdx?_cons,
      if_neg (by simp [hl a (List.mem_cons_self a rest)]), ih (i + 1)
        (fun b hb => hl b (List.mem_cons_of_mem a hb))]
    congr 1
    simp
    omega

/-- Counterexample to C9 as stated: for a URI already registered, the
add/remove pair does not leave the registry unchanged. -/
theorem add_remove_roundtrip_cex :
    remove_broker "mqtt://a" (add_broker "mqtt://a" 0 dupReg) ≠ dupReg := by
  decide

/-- C9 (amended): provided the URI is not already registered and the current
index is well-formed (as in every reachable state), `add_broker u` followed
by `remove_broker u` leaves the registry unchanged: same records, same
order, same current index. -/
theorem add_remove_roundtrip (reg : BrokerListManager) (u : String) (now : ℕ)
    (hwf : RegWF reg) (hu : ∀ b ∈ reg.brokers, b.uri ≠ u) :
    remove_broker u (add_broker u now reg) = reg := by
  obtain ⟨brokers, ci, cat⟩ := reg
  obtain ⟨hwf0, hwf1⟩ := hwf
  simp only at hwf0 hwf1 hu
  have hadd : add_broker u now ⟨brokers, ci, cat⟩ =
      ⟨brokers ++ [mkBrokerInfo u now],
       if brokers.length + 1 = 1 then 0 else ci, cat⟩ := by
    unfold add_broker
    rw [if_neg (by simp; intro b hb; exact hu b hb)]
    simp [List.length_append]
  rw [hadd]
  have hfind : List.findIdx? (fun b => decide (b.uri = u))
      (brokers ++ [mkBrokerInfo u now]) = some brokers.length := by
    have h1 := findIdx?_append_singleton (fun b => decide (b.uri = u))
      (mkBrokerInfo u now) (by simp [mkBrokerInfo]) brokers 0
      (fun b hb => by simp [hu b hb])
    simpa using h1
  unfold remove_broker
  simp only [hfind]
  by_cases hnil : brokers = []
  · subst hnil
    simp [List.eraseIdx_cons_zero, hwf0 rfl]
  · have hpos : 0 < brokers.length := List.length_pos.mpr hnil
    have hci : ci < brokers.length := hwf1 hnil
    rw [if_neg (by omega : ¬ brokers.length + 1 = 1),
      eraseIdx_append_singleton,
      if_neg (by omega : ¬ brokers.length = ci),
      if_neg (by omega : ¬ brokers.length < ci)]

theorem add_remove_roundtrip_witness :
    RegWF dupReg ∧ (∀ b ∈ dupReg.brokers, b.uri ≠ "mqtt://b") ∧
    remove_broker "mqtt://b" (add_broker "mqtt://b" 5 dupReg) = dupReg := by
  have hwf : RegWF dupReg := by
    constructor <;> simp [dupReg]
  have hu : ∀ b ∈ dupReg.brokers, b.uri ≠ "mqtt://b" := by
    intro b hb
    simp [dupReg] at hb
    subst hb
    decide
  exact ⟨hwf, hu, add_remove_roundtrip dupReg "mqtt://b" 5 hwf hu⟩

/-- The fall-through loop returns false and marks the whole snapshot
unavailable when no URI of the snapshot connects. -/
theorem connect_go_all_fail (net : String → Bool) (pub : QueuedMessage → Bool) :
    ∀ (uris : List String) (i : ℕ) (st : MqttManager),
      uris.dropWhile (fun v => !net v) = [] →
      connect_go net pub uris i st =
        (false,
         { st with
           is_connecting := false
           has_client := st.has_client || !uris.isEmpty
           registry := mark_all_unavailable uris st.registry }) := by
  intro uris
  induction uris with
  | nil =>
    intro i st _
    simp [connect_go, mark_all_unavailable]
  | cons u rest ih =>
    intro i st h
    rw [List.dropWhile_cons] at h
    by_cases hn : net u
    · rw [if_neg (by simp [hn])] at h
      exact absurd h (by simp)
    · rw [if_pos (by simp [hn])] at h
      rw [connect_go, if_neg hn, ih (i + 1) _ h]
      obtain ⟨c, cg, hcl, r, q, ti⟩ := st
      simp [mark_all_unavailable]

/-- The fall-through loop succeeds on the first URI of the snapshot that
connects, having marked the failed prefix unavailable. -/
theorem connect_go_first_success (net : String → Bool) (pub : QueuedMessage → Bool) :
    ∀ (uris : List String) (i : ℕ) (st : MqttManager) (u : String)
      (rest : List String),
      uris.dropWhile (fun v => !net v) = u :: rest →
      connect_go net pub uris i st =
        (true,
         { st with
           has_client := true
           is_connected := true
           is_connecting := false
           current_broker_try_index := i + (uris.takeWhile (fun v => !net v)).length
           registry := (set_current_broker u
             (mark_all_unavailable (uris.takeWhile (fun v => !net v)) st.registry)).2
           queue := (resend_queued_messages pub st.queue).2 }) := by
  intro uris
  induction uris with
  | nil =>
    intro i st u rest h
    simp at h
  | cons v vrest ih =>
    intro i st u rest h
    rw [List.dropWhile_cons] at h
    by_cases hn : net v
    · rw [if_neg (by simp [hn])] at h
      cases h
      rw [connect_go, if_pos hn, List.takeWhile_cons, if_neg (by simp [hn])]
      obtain ⟨c, cg, hcl, r, q, ti⟩ := st
      simp [mark_all_unavailable]
    · rw [if_pos (by simp [hn])] at h
      rw [connect_go, if_neg hn, ih (i + 1) _ u rest h,
        List.takeWhile_cons, if_pos (by simp [hn])]
      obtain ⟨c, cg, hcl, r, q, ti⟩ := st
      simp [mark_all_unavailable]
      omega

/-- C4: `connect` is idempotent when already connected or connecting
(returning the current connected-ness with no other effect); otherwise it
snapshots the available brokers in registration order and tries them in
turn: if every snapshot entry fails to connect it returns false with all
of them marked unavailable, and on the first entry that connects it
returns true having set that broker current, recorded its position,
marked exactly the failed prefix unavailable and flushed the offline
queue. -/
theorem connect_spec (net : String → Bool) (pub : QueuedMessage → Bool)
    (st : MqttManager) :
    ((st.is_connected || st.is_connecting) = true →
      connect net pub st = (st.is_connected, st)) ∧
    (st.is_connected = false → st.is_connecting = false →
      (((avail_uris st.registry).dropWhile (fun v => !net v) = [] →
          connect net pub st =
            (false, connect_fail_state st (avail_uris st.registry))) ∧
        (∀ u rest,
          (avail_uris st.registry).dropWhile (fun v => !net v) = u :: rest →
          connect net pub st =
            (true, connect_success_state pub st u
              ((avail_uris st.registry).takeWhile (fun v => !net v)))))) := by
  obtain ⟨c, cg, hcl, r, q, ti⟩ := st
  constructor
  · intro h
    simp only at h
    simp [connect, h]
  · intro hc hcg
    simp only at hc hcg
    subst hc
    subst hcg
    constructor
    · intro hdrop
      simp only at hdrop
      by_cases hemp : (avail_uris r).isEmpty
      · have hnil2 : avail_uris r = [] := by simpa using hemp
        simp [connect, connect_fail_state, hnil2, mark_all_unavailable]
      · have hne : (avail_uris r).isEmpty = false := by simpa using hemp
        simp only [connect, Bool.or_self]
        rw [if_neg (by simp)]
        simp only [hne]
        rw [if_neg (by simp)]
        rw [connect_go_all_fail net pub _ 0 _ hdrop]
        simp [connect_fail_state, hne]
    · intro u rest hdrop
      simp only at hdrop
      have hne : (avail_uris r).isEmpty = false := by
        rcases havail : avail_uris r with _ | ⟨x, xs⟩
        · rw [havail] at hdrop
          simp at hdrop
        · simp
      simp only [connect, Bool.or_self]
      rw [if_neg (by simp)]
      simp only [hne]
      rw [if_neg (by simp)]
      rw [connect_go_first_success net pub _ 0 _ u rest hdrop]
      simp [connect_success_state]

theorem connect_spec_witness :
    ((stBusy.is_connected || stBusy.is_connecting) = true ∧
      connect netB pubOk stBusy = (stBusy.is_connected, stBusy)) ∧
    ((avail_uris stIdle.registry).dropWhile (fun v => !netNone v) = [] ∧
      connect netNone pubOk stIdle =
        (false, connect_fail_state stIdle (avail_uris stIdle.registry))) ∧
    ((avail_uris stIdle.registry).dropWhile (fun v => !netB v) = ["mqtt://b"] ∧
      connect netB pubOk stIdle =
        (true, connect_success_state pubOk stIdle "mqtt://b"
          ((avail_uris stIdle.registry).takeWhile (fun v => !netB v)))) :=
  ⟨⟨rfl, (connect_spec netB pubOk stBusy).1 rfl⟩,
   ⟨by decide, ((connect_spec netNone pubOk stIdle).2 rfl rfl).1 (by decide)⟩,
   ⟨by decide, ((connect_spec netB pubOk stIdle).2 rfl rfl).2 "mqtt://b" [] (by decide)⟩⟩

/-- C1 (divergence witness): with current = a (score 0.2) and best = b
(score 0.9), `should_switch_broker` confirms the switch and
`find_best_broker` names b, yet `on_broker_switch` — even when every
broker accepts connections — reconnects to a, the broker at the try
cursor of the availability-ordered snapshot, not to the best-scored
broker b. -/
theorem switch_connects_in_list_order :
    should_switch_broker switchSt.registry = true ∧
    (find_best_broker switchSt.registry).map (fun b => b.uri) = some "mqtt://b" ∧
    get_current_broker_uri
      ((on_broker_switch (fun _ => true) (fun _ => true) "mqtt://b" switchSt).registry) =
      "mqtt://a" := by
  have h1 : ((-1:ℚ) < 2/10) := by norm_num
  have h2 : ((2:ℚ)/10 < 9/10) := by norm_num
  have hfb : find_best_broker switchSt.registry = some brokerHigh := by
    simp [find_best_broker, switchSt, switchReg, brokerLow, brokerHigh, h1, h2]
  have hcur : get_current_broker switchSt.registry = some brokerLow := by
    simp [get_current_broker, switchSt, switchReg]
  have hss : should_switch_broker switchSt.registry = true := by
    rw [should_switch_broker, hfb, hcur]
    show (if brokerLow.uri ≠ brokerHigh.uri then
        decide (brokerHigh.score - brokerLow.score > 1/10) else false) = true
    rw [if_pos (by decide)]
    rw [decide_eq_true_eq]
    show (9:ℚ)/10 - 2/10 > 1/10
    norm_num
  refine ⟨hss, by rw [hfb]; rfl, ?_⟩
  rw [on_broker_switch, if_pos hss]
  simp [switch_to_best_broker, switchSt, switchReg, avail_uris, brokerLow,
    brokerHigh, set_current_broker, get_current_broker_uri, get_current_broker,
    List.findIdx?_cons]

end PahoSelfAdaptive
